import Mathlib

/-!
Shallow embedding of `bddtests/steps/bdd_compose_util.py`.

The Python module is readiness-polling glue for a docker-compose based test
harness.  External collaborators (the `cli_call` command runner, the HTTP
client, the wall clock) are modelled as explicit oracle parameters; the code
of the module itself is translated definition by definition.  Python strings
are modelled as Lean `String` (a list of characters), and the handful of
Python string primitives the module uses (`in`, `startswith`, slicing,
`split`, `splitlines`) are given explicit character-list implementations
below so that every definition is executable by the kernel.
-/

/-! ## Python string primitives -/

/-- `startsWithList hay pre` is Python `hay.startswith(pre)` on character
lists: `pre` is a prefix of `hay`. -/
def startsWithList (hay needle : List Char) : Bool :=
  match needle, hay with
  | [], _ => true
  | _ :: _, [] => false
  | b :: bs, a :: as => a == b && startsWithList as bs

/-- `containsList needle hay` is Python `needle in hay` on character lists:
`needle` occurs as a contiguous substring of `hay`. -/
def containsList (needle : List Char) : List Char → Bool
  | [] => startsWithList [] needle
  | c :: rest => startsWithList (c :: rest) needle || containsList needle rest

/-- Python `s.startswith(pre)`. -/
def strStartsWith (s pre : String) : Bool := startsWithList s.data pre.data

/-- Python `needle in hay` (substring containment). -/
def strContains (hay needle : String) : Bool := containsList needle.data hay.data

/-- Python `s[n:]` (character slicing from index `n`). -/
def strDrop (s : String) (n : Nat) : String := ⟨s.data.drop n⟩

/-- Helper for `pySplitLines`: split a character list at newline characters. -/
def splitLinesChars : List Char → List (List Char)
  | [] => []
  | c :: cs =>
    if c = '\n' then [] :: splitLinesChars cs
    else
      match splitLinesChars cs with
      | [] => [[c]]
      | l :: ls => (c :: l) :: ls

/-- Python `s.splitlines()`: no trailing empty line, and `[]` for `""`. -/
def pySplitLines (s : String) : List String :=
  (splitLinesChars s.data).map (fun cs => ⟨cs⟩)

/-- Helper for `pyTokens`: split at whitespace runs, dropping empty tokens.
The first argument accumulates the current token in reverse. -/
def splitWsAux : List Char → List Char → List (List Char)
  | acc, [] => if acc.isEmpty then [] else [acc.reverse]
  | acc, c :: cs =>
    if c.isWhitespace then
      if acc.isEmpty then splitWsAux [] cs else acc.reverse :: splitWsAux [] cs
    else splitWsAux (c :: acc) cs

/-- Python `s.split()` with no argument: whitespace-separated tokens, empty
tokens dropped. -/
def pyTokens (s : String) : List String :=
  (splitWsAux [] s.data).map (fun cs => ⟨cs⟩)

/-! ## `ContainerData` (bdd_compose_util.py, lines 23-44) -/

/-- One running container discovered during a test session (class
`ContainerData`, lines 23-28). -/
structure ContainerData where
  containerName : String
  ipAddress : String
  envFromInspect : List String
  composeService : String

/-- The loop body of `ContainerData.getEnv` (lines 31-35): scan the
environment entries in order and return the first one that starts with
`key`, with its first `len(key)` characters removed. -/
def getEnvAux (key : String) : List String → Option String
  | [] => none
  | val :: rest =>
    if strStartsWith val key then some (strDrop val key.length)
    else getEnvAux key rest

/-- The exception message raised on line 37. -/
def envKeyNotFoundMsg (key containerName : String) : String :=
  "ENV key not found (" ++ key ++ ") for container (" ++ containerName ++ ")"

/-- `ContainerData.getEnv` (lines 30-38).  Raising the exception is modelled
as `Except.error`. -/
def ContainerData.getEnv (c : ContainerData) (key : String) : Except String String :=
  match getEnvAux key c.envFromInspect with
  | some envValue => Except.ok envValue
  | none => Except.error (envKeyNotFoundMsg key c.containerName)

/-! ## Lemmas about `getEnv` -/

theorem getEnvAux_eq_find (key : String) (l : List String) :
    getEnvAux key l =
      (l.find? (fun e => strStartsWith e key)).map (fun e => strDrop e key.length) := by
  induction l with
  | nil => rfl
  | cons e rest ih =>
    by_cases h : strStartsWith e key = true
    · simp [getEnvAux, h, List.find?_cons_of_pos]
    · rw [Bool.not_eq_true] at h
      simp [getEnvAux, h, List.find?_cons_of_neg, ih]

theorem getEnvAux_eq_none_iff (key : String) (l : List String) :
    getEnvAux key l = none ↔ ∀ e ∈ l, strStartsWith e key = false := by
  rw [getEnvAux_eq_find]
  simp [List.find?_eq_none]

/-- A string is a substring of any surrounding concatenation: prefix case. -/
theorem startsWithList_append (b c : List Char) :
    startsWithList (b ++ c) b = true := by
  induction b with
  | nil => simp [startsWithList]
  | cons x xs ih => simp [startsWithList, ih]

theorem containsList_cons (needle : List Char) (c : Char) (l : List Char)
    (h : containsList needle l = true) : containsList needle (c :: l) = true := by
  simp [containsList, h]

theorem containsList_append_left (a needle l : List Char)
    (h : containsList needle l = true) : containsList needle (a ++ l) = true := by
  induction a with
  | nil => exact h
  | cons x xs ih => exact containsList_cons needle x (xs ++ l) ih

theorem containsList_nil_needle (hay : List Char) :
    containsList [] hay = true := by
  induction hay with
  | nil => rfl
  | cons c rest ih => simp [containsList, startsWithList]

theorem containsList_self_append (b c : List Char) :
    containsList b (b ++ c) = true := by
  cases b with
  | nil => exact containsList_nil_needle c
  | cons x xs =>
    simp only [containsList, List.cons_append, Bool.or_eq_true]
    exact Or.inl (startsWithList_append (x :: xs) c)

/-- `b` occurs as a substring of `a ++ b ++ c`. -/
theorem strContains_mid (a b c : String) :
    strContains (a ++ b ++ c) b = true := by
  show containsList b.data (a ++ b ++ c).data = true
  have hdata : (a ++ b ++ c).data = a.data ++ (b.data ++ c.data) := by
    simp [String.data_append]
  rw [hdata]
  exact containsList_append_left a.data b.data (b.data ++ c.data)
    (containsList_self_append b.data c.data)

/-- C6: `ContainerData.getEnv` raises an explicit error naming both the key
and the container iff no environment entry carries the key (per C10 the code
tests whether an entry starts with the key string), and it never returns a
silent default: whenever some entry matches it returns a value. -/
theorem getEnv_fails_loudly (c : ContainerData) (key : String) :
    (c.getEnv key = Except.error (envKeyNotFoundMsg key c.containerName) ↔
      ∀ e ∈ c.envFromInspect, strStartsWith e key = false) ∧
    strContains (envKeyNotFoundMsg key c.containerName) key = true ∧
    strContains (envKeyNotFoundMsg key c.containerName) c.containerName = true ∧
    ((∃ e ∈ c.envFromInspect, strStartsWith e key = true) →
      ∃ v, c.getEnv key = Except.ok v) := by
  refine ⟨⟨?_, ?_⟩, ?_, ?_, ?_⟩
  · intro h
    cases heq : getEnvAux key c.envFromInspect with
    | some v => simp [ContainerData.getEnv, heq] at h
    | none => exact (getEnvAux_eq_none_iff key c.envFromInspect).mp heq
  · intro h
    have hnone : getEnvAux key c.envFromInspect = none :=
      (getEnvAux_eq_none_iff key c.envFromInspect).mpr h
    simp [ContainerData.getEnv, hnone]
  · show containsList key.data (envKeyNotFoundMsg key c.containerName).data = true
    have hdata : (envKeyNotFoundMsg key c.containerName).data =
        "ENV key not found (".data ++ (key.data ++
          (") for container (".data ++ (c.containerName.data ++ ")".data))) := by
      simp [envKeyNotFoundMsg]
    rw [hdata]
    exact containsList_append_left _ _ _ (containsList_self_append _ _)
  · show containsList c.containerName.data (envKeyNotFoundMsg key c.containerName).data = true
    have hdata : (envKeyNotFoundMsg key c.containerName).data =
        "ENV key not found (".data ++ (key.data ++
          (") for container (".data ++ (c.containerName.data ++ ")".data))) := by
      simp [envKeyNotFoundMsg]
    rw [hdata]
    exact containsList_append_left _ _ _ (containsList_append_left _ _ _
      (containsList_append_left _ _ _ (containsList_self_append _ _)))
  · rintro ⟨e, he, hs⟩
    cases heq : getEnvAux key c.envFromInspect with
    | some v => exact ⟨v, by simp [ContainerData.getEnv, heq]⟩
    | none =>
      have := (getEnvAux_eq_none_iff key c.envFromInspect).mp heq e he
      rw [this] at hs
      cases hs

theorem getEnv_fails_loudly_witness :
    (ContainerData.mk "vp0" "172.17.0.2" ["CORE_PEER_ID=vp0"] "vp0").getEnv "MISSING_KEY" =
      Except.error (envKeyNotFoundMsg "MISSING_KEY" "vp0") :=
  (getEnv_fails_loudly (ContainerData.mk "vp0" "172.17.0.2" ["CORE_PEER_ID=vp0"] "vp0")
    "MISSING_KEY").1.mpr (by decide)

/-- C10: `ContainerData.getEnv` matches the key as a string prefix of the
environment entries (not as an exact `KEY=` name): it takes the first entry
starting with the key and drops the key's length from it.  In particular
looking up `FOO` in `FOOBAR=x` yields `BAR=x`, and looking up `K` in `K=v`
yields `=v` (the equals sign included). -/
theorem getEnv_matches_by_string_pfx (c : ContainerData) (key : String) :
    c.getEnv key =
      (match c.envFromInspect.find? (fun e => strStartsWith e key) with
       | some e => Except.ok (strDrop e key.length)
       | none => Except.error (envKeyNotFoundMsg key c.containerName)) ∧
    (ContainerData.mk "c0" "" ["FOOBAR=x"] "s").getEnv "FOO" = Except.ok "BAR=x" ∧
    (ContainerData.mk "c1" "" ["K=v"] "s").getEnv "K" = Except.ok "=v" := by
  refine ⟨?_, rfl, rfl⟩
  unfold ContainerData.getEnv
  rw [getEnvAux_eq_find]
  cases c.envFromInspect.find? (fun e => strStartsWith e key) <;> simp

/-! ## `parseComposeOutput` (bdd_compose_util.py, lines 53-99) -/

/-- The name normalisation on lines 63-64: when the container-name token does
not contain the project name pfx (Python `in`, substring containment), wrap
it as `namePfx + token + "_1"`. -/
def normalizeName (namePfx tok : String) : String :=
  if strContains tok namePfx then tok else namePfx ++ tok ++ "_1"

/-- The name-collection loop on lines 57-66: for each line with at least two
whitespace tokens take the second token (`tokens[1]`), normalise it, and
append it to the accumulator unless already present. -/
def parseNamesAux (namePfx : String) (acc : List String) : List String → List String
  | [] => acc
  | l :: ls =>
    match (pyTokens l).get? 1 with
    | none => parseNamesAux namePfx acc ls
    | some tok =>
      let name := normalizeName namePfx tok
      parseNamesAux namePfx (if name ∈ acc then acc else acc ++ [name]) ls

/-- The container names extracted by `parseComposeOutput` from
`context.compose_error` (lines 56-66).  `cwdBase` stands for
`os.path.basename(os.getcwd())`; line 56 appends `"_"` to it. -/
def parseComposeNames (cwdBase composeError : String) : List String :=
  parseNamesAux (cwdBase ++ "_") [] (pySplitLines composeError)

/-- `parseComposeOutput` (lines 53-98) as a function on the session registry
`context.compose_containers`.  The three `docker inspect` calls of lines
72-90 are external collaborators; `inspect` is an oracle giving, per
container name, the parsed IP address, environment array and compose
service.  Lines 91-98 merge by plain list append. -/
def parseComposeOutput (inspect : String → String × List String × String)
    (cwdBase : String) (composeError : String)
    (existing : List ContainerData) : List ContainerData :=
  let containerNames := parseComposeNames cwdBase composeError
  let containerDataList := containerNames.map (fun n =>
    ContainerData.mk n (inspect n).1 (inspect n).2.1 (inspect n).2.2)
  existing ++ containerDataList

theorem parseNamesAux_nodup (namePfx : String) :
    ∀ ls acc, acc.Nodup → (parseNamesAux namePfx acc ls).Nodup := by
  intro ls
  induction ls with
  | nil => intro acc h; exact h
  | cons l ls ih =>
    intro acc h
    cases htok : (pyTokens l).get? 1 with
    | none => simpa only [parseNamesAux, htok] using ih acc h
    | some tok =>
      simp only [parseNamesAux, htok]
      apply ih
      by_cases hmem : normalizeName namePfx tok ∈ acc
      · simpa [hmem] using h
      · simp [hmem, List.nodup_append, h, List.disjoint_singleton]

theorem parseNamesAux_mem (namePfx : String) :
    ∀ ls acc n, n ∈ parseNamesAux namePfx acc ls ↔
      n ∈ acc ∨ ∃ l ∈ ls, ∃ tok, (pyTokens l).get? 1 = some tok ∧
        n = normalizeName namePfx tok := by
  intro ls
  induction ls with
  | nil => intro acc n; simp [parseNamesAux]
  | cons l ls ih =>
    intro acc n
    cases htok : (pyTokens l).get? 1 with
    | none =>
      rw [show parseNamesAux namePfx acc (l :: ls) = parseNamesAux namePfx acc ls by
        simp only [parseNamesAux, htok]]
      rw [ih]
      simp only [List.mem_cons]
      constructor
      · rintro (h | ⟨l', hl', tok, ht, hn⟩)
        · exact Or.inl h
        · exact Or.inr ⟨l', Or.inr hl', tok, ht, hn⟩
      · rintro (h | ⟨l', hl' | hl', tok, ht, hn⟩)
        · exact Or.inl h
        · rw [hl'] at ht; rw [htok] at ht; cases ht
        · exact Or.inr ⟨l', hl', tok, ht, hn⟩
    | some tok =>
      rw [show parseNamesAux namePfx acc (l :: ls) =
            parseNamesAux namePfx
              (if normalizeName namePfx tok ∈ acc then acc
               else acc ++ [normalizeName namePfx tok]) ls by
        simp only [parseNamesAux, htok]]
      rw [ih]
      have hacc : ∀ m : String,
          m ∈ (if normalizeName namePfx tok ∈ acc then acc
               else acc ++ [normalizeName namePfx tok]) ↔
            m ∈ acc ∨ m = normalizeName namePfx tok := by
        intro m
        by_cases hmem : normalizeName namePfx tok ∈ acc
        · simp only [hmem, if_pos]
          constructor
          · exact fun hm => Or.inl hm
          · rintro (hm | rfl)
            · exact hm
            · exact hmem
        · simp [hmem]
      rw [hacc]
      simp only [List.mem_cons]
      constructor
      · rintro ((h | rfl) | ⟨l', hl', tok', ht, hn⟩)
        · exact Or.inl h
        · exact Or.inr ⟨l, Or.inl rfl, tok, htok, rfl⟩
        · exact Or.inr ⟨l', Or.inr hl', tok', ht, hn⟩
      · rintro (h | ⟨l', hl' | hl', tok', ht, hn⟩)
        · exact Or.inl (Or.inl h)
        · rw [hl'] at ht; rw [htok] at ht
          cases ht
          exact Or.inl (Or.inr hn)
        · exact Or.inr ⟨l', hl', tok', ht, hn⟩

/-- C8: a single parse takes the second whitespace token of every line having
at least two tokens, normalises it, and the resulting name list contains each
name exactly once (it is duplicate-free, and a name is in it iff some line
produced it). -/
theorem parseComposeNames_spec (cwdBase text : String) :
    (parseComposeNames cwdBase text).Nodup ∧
    ∀ n, n ∈ parseComposeNames cwdBase text ↔
      ∃ l ∈ pySplitLines text, ∃ tok, (pyTokens l).get? 1 = some tok ∧
        n = normalizeName (cwdBase ++ "_") tok := by
  constructor
  · exact parseNamesAux_nodup (cwdBase ++ "_") (pySplitLines text) [] List.nodup_nil
  · intro n
    rw [parseComposeNames, parseNamesAux_mem]
    simp

/-- C9: a raw container-name token that does not contain the project name pfx
is normalised to `cwdBase ++ "_" ++ token ++ "_1"`, i.e. the project name
followed by an underscore, the raw name, and the instance suffix `"_1"`. -/
theorem normalizeName_missing_pfx (cwdBase tok : String)
    (h : strContains tok (cwdBase ++ "_") = false) :
    normalizeName (cwdBase ++ "_") tok = cwdBase ++ "_" ++ tok ++ "_1" := by
  simp only [normalizeName, h, Bool.false_eq_true, if_false]

theorem normalizeName_missing_pfx_witness :
    strContains "vp0" ("net" ++ "_") = false ∧
      normalizeName ("net" ++ "_") "vp0" = "net" ++ "_" ++ "vp0" ++ "_1" :=
  ⟨by decide, normalizeName_missing_pfx "net" "vp0" (by decide)⟩

/-- A concrete inspect oracle for counterexamples: every container reports
the same IP, an empty environment and a fixed compose service. -/
def constInspect : String → String × List String × String :=
  fun _ => ("172.17.0.2", [], "svc")

/-- C4 counterexample: the merge on lines 91-98 is a plain list append, so
parsing the same compose output twice within one session (two
`parseComposeOutput` calls) leaves the registry with the container name
`net_vp0_1` twice, violating at-most-once uniqueness across merges. -/
theorem registry_duplicates_across_merges :
    ((parseComposeOutput constInspect "net" "x vp0"
        (parseComposeOutput constInspect "net" "x vp0" [])).map
      ContainerData.containerName).count "net_vp0_1" = 2 := by
  rfl

/-- C4 amended: each container name appears at most once among the records
produced by a single parse (the per-parse name list is duplicate-free), and
the merge appends the new records' names after the existing ones without
deduplicating, so uniqueness across repeated merges holds only when no name
recurs across parses. -/
theorem registry_names_after_merge (inspect : String → String × List String × String)
    (cwdBase text : String) (existing : List ContainerData) :
    (parseComposeOutput inspect cwdBase text existing).map ContainerData.containerName =
      existing.map ContainerData.containerName ++ parseComposeNames cwdBase text ∧
    (parseComposeNames cwdBase text).Nodup := by
  constructor
  · simp only [parseComposeOutput, List.map_append, List.map_map]
    congr 1
    exact List.map_congr_left (fun n _ => rfl) |>.trans (List.map_id _)
  · exact parseNamesAux_nodup (cwdBase ++ "_") (pySplitLines text) [] List.nodup_nil

/-! ## `containerIsPeer` (bdd_compose_util.py, lines 192-198) -/

/-- One position of the regex search: does the character list begin with
`v`/`V`, then `p`/`P`, then a decimal digit?  This is the case-insensitive
pattern `vp[0-9]+` anchored at the head (one digit suffices for `[0-9]+`). -/
def isVpMatchAt : List Char → Bool
  | v :: p :: d :: _ => (v == 'v' || v == 'V') && (p == 'p' || p == 'P') && d.isDigit
  | _ => false

/-- Python `re.search("vp[0-9]+", s, re.IGNORECASE)` viewed as a Boolean:
some suffix of `s` starts with the pattern. -/
def searchVpDigits : List Char → Bool
  | [] => false
  | c :: cs => isVpMatchAt (c :: cs) || searchVpDigits cs

/-- `containerIsPeer` (line 198): the truthiness of the regex search over the
container name. -/
def containerIsPeer (c : ContainerData) : Bool :=
  searchVpDigits c.containerName.data

theorem isVpMatchAt_eq_true (l : List Char) :
    isVpMatchAt l = true ↔ ∃ v p d rest, l = v :: p :: d :: rest ∧
      (v = 'v' ∨ v = 'V') ∧ (p = 'p' ∨ p = 'P') ∧ d.isDigit = true := by
  cases l with
  | nil => simp [isVpMatchAt]
  | cons v l' =>
    cases l' with
    | nil => simp [isVpMatchAt]
    | cons p l'' =>
      cases l'' with
      | nil => simp [isVpMatchAt]
      | cons d rest =>
        simp only [isVpMatchAt, Bool.and_eq_true, Bool.or_eq_true, beq_iff_eq]
        constructor
        · rintro ⟨⟨hv, hp⟩, hd⟩
          exact ⟨v, p, d, rest, rfl, hv, hp, hd⟩
        · rintro ⟨v', p', d', rest', heq, hv, hp, hd⟩
          rw [List.cons.injEq, List.cons.injEq, List.cons.injEq] at heq
          obtain ⟨rfl, rfl, rfl, -⟩ := heq
          exact ⟨⟨hv, hp⟩, hd⟩

theorem searchVpDigits_iff (l : List Char) :
    searchVpDigits l = true ↔ ∃ pre v p d post, l = pre ++ v :: p :: d :: post ∧
      (v = 'v' ∨ v = 'V') ∧ (p = 'p' ∨ p = 'P') ∧ d.isDigit = true := by
  induction l with
  | nil =>
    constructor
    · intro h; simp [searchVpDigits] at h
    · rintro ⟨pre, v, p, d, post, h, -⟩; cases pre <;> simp at h
  | cons c cs ih =>
    simp only [searchVpDigits, Bool.or_eq_true]
    constructor
    · rintro (h | h)
      · obtain ⟨v, p, d, rest, heq, hv, hp, hd⟩ := (isVpMatchAt_eq_true _).mp h
        exact ⟨[], v, p, d, rest, by simp [heq], hv, hp, hd⟩
      · obtain ⟨pre, v, p, d, post, heq, hv, hp, hd⟩ := ih.mp h
        exact ⟨c :: pre, v, p, d, post, by simp [heq], hv, hp, hd⟩
    · rintro ⟨pre, v, p, d, post, heq, hv, hp, hd⟩
      cases pre with
      | nil =>
        simp only [List.nil_append] at heq
        exact Or.inl ((isVpMatchAt_eq_true (c :: cs)).mpr ⟨v, p, d, post, heq, hv, hp, hd⟩)
      | cons a pre' =>
        simp only [List.cons_append, List.cons.injEq] at heq
        obtain ⟨rfl, hcs⟩ := heq
        exact Or.inr (ih.mpr ⟨pre', v, p, d, post, hcs, hv, hp, hd⟩)

/-- C7: `containerIsPeer` holds iff the container name contains, anywhere,
the role marker `vp` (case-insensitively) immediately followed by a decimal
digit; in particular it accepts `vp0` and `VP12` and rejects `peer1` and
`vp`. -/
theorem containerIsPeer_spec :
    (∀ c : ContainerData, containerIsPeer c = true ↔
      ∃ pre v p d post, c.containerName.data = pre ++ v :: p :: d :: post ∧
        (v = 'v' ∨ v = 'V') ∧ (p = 'p' ∨ p = 'P') ∧ d.isDigit = true) ∧
    containerIsPeer (ContainerData.mk "vp0" "" [] "") = true ∧
    containerIsPeer (ContainerData.mk "VP12" "" [] "") = true ∧
    containerIsPeer (ContainerData.mk "peer1" "" [] "") = false ∧
    containerIsPeer (ContainerData.mk "vp" "" [] "") = false :=
  ⟨fun c => searchVpDigits_iff c.containerName.data, by decide, by decide, by decide, by decide⟩

/-! ## Readiness prober (bdd_compose_util.py, lines 137-171)

`cli_call` is the external command runner.  For `tcpPortsAreReady` only the
captured stdout of `docker exec <name> netstat -atun` matters, modelled by a
`netstat : String → String` oracle keyed by container name; for
`restPortRespondsIfContainerIsPeer` only the exit code of
`docker exec <name> curl localhost:<CORE_REST_PORT>` matters, modelled by a
`curlRc : String → Int` oracle. -/

/-- `tcpPortsAreReady` (lines 143-151): some line of the container's netstat
output matches the regex `ESTABLISHED|LISTEN`, i.e. contains one of the two
literals as a substring. -/
def tcpPortsAreReady (netstat : String → String) (c : ContainerData) : Bool :=
  (pySplitLines (netstat c.containerName)).any
    (fun line => strContains line "ESTABLISHED" || strContains line "LISTEN")

/-- `restPortRespondsIfContainerIsPeer` (lines 159-171): for a peer container
the curl probe's exit code must be zero; for a non-peer it returns True. -/
def restPortRespondsIfContainerIsPeer (curlRc : String → Int) (c : ContainerData) : Bool :=
  if containerIsPeer c then decide (curlRc c.containerName = 0) else true

/-- `containerIsInitialized` (lines 137-141). -/
def containerIsInitialized (netstat : String → String) (curlRc : String → Int)
    (c : ContainerData) : Bool :=
  tcpPortsAreReady netstat c && restPortRespondsIfContainerIsPeer curlRc c

/-- C3: a container is initialized iff (a) some line of its TCP table output
contains `ESTABLISHED` or `LISTEN`, and (b) if it is classified as a peer the
HTTP probe exits with code zero; for a non-peer (b) holds vacuously. -/
theorem containerIsInitialized_spec (netstat : String → String) (curlRc : String → Int)
    (c : ContainerData) :
    containerIsInitialized netstat curlRc c = true ↔
      ((∃ line ∈ pySplitLines (netstat c.containerName),
          strContains line "ESTABLISHED" = true ∨ strContains line "LISTEN" = true) ∧
        (containerIsPeer c = true → curlRc c.containerName = 0)) := by
  rw [containerIsInitialized, Bool.and_eq_true]
  constructor
  · rintro ⟨htcp, hrest⟩
    constructor
    · rw [tcpPortsAreReady, List.any_eq_true] at htcp
      obtain ⟨line, hmem, hline⟩ := htcp
      rw [Bool.or_eq_true] at hline
      exact ⟨line, hmem, hline⟩
    · intro hpeer
      rw [restPortRespondsIfContainerIsPeer, hpeer] at hrest
      simpa using hrest
  · rintro ⟨⟨line, hmem, hline⟩, hrest⟩
    constructor
    · rw [tcpPortsAreReady, List.any_eq_true]
      exact ⟨line, hmem, by rw [Bool.or_eq_true]; exact hline⟩
    · rw [restPortRespondsIfContainerIsPeer]
      cases hpeer : containerIsPeer c with
      | false => simp
      | true => simp [hrest hpeer]

/-! ## Peer convergence checker (bdd_compose_util.py, lines 215-238)

The HTTP collaborator.  `requests.get` on the URL built from the peer's IP
address is modelled by an oracle `httpGet : String → HttpResponse` keyed by
the IP address (`buildUrl` from `bdd_rest_util` only injects the IP into a
fixed URL template, and the port `CORE_REST_PORT` is fixed).  The response
body is modelled directly as parsed JSON. -/

/-- A minimal JSON value type for the peer-list responses. -/
inductive JsonVal where
  | null
  | bool (b : Bool)
  | num (n : Int)
  | str (s : String)
  | arr (elems : List JsonVal)
  | obj (fields : List (String × JsonVal))

/-- An HTTP response: status code and parsed JSON body. -/
structure HttpResponse where
  status_code : Nat
  body : JsonVal

/-- First binding of a key in a JSON object's field list. -/
def lookupField (attr : String) : List (String × JsonVal) → Option JsonVal
  | [] => none
  | kv :: rest => if kv.1 = attr then some kv.2 else lookupField attr rest

/-- Structural lookup of a named field: `none` when the value is not an
object or the field is absent. -/
def jsonLookup (attr : String) : JsonVal → Option JsonVal
  | .obj fields => lookupField attr fields
  | _ => none

/-- Modelled from the spec: `getAttributeFromJSON` comes from
`bdd_json_util`, which is not among the sources; per the spec it "extracts a
named JSON field expected to hold the peer list, failing with an explicit
error if the field is structurally missing". -/
def getAttributeFromJSON (attr : String) (j : JsonVal) (msg : String) : Except String JsonVal :=
  match jsonLookup attr j with
  | some v => Except.ok v
  | none => Except.error msg

/-- Python `len()` applied to a decoded JSON value: defined for lists,
objects and strings, a `TypeError` otherwise. -/
def pyLen : JsonVal → Except String Nat
  | .arr elems => Except.ok elems.length
  | .obj fields => Except.ok fields.length
  | .str s => Except.ok s.length
  | _ => Except.error "TypeError: object has no len()"

/-- `getConnectedPeersFromPeer` (lines 231-238): `Except.ok none` models the
Python `return None` on a non-200 status, `Except.error` models the raised
exception when the `peers` attribute is missing. -/
def getConnectedPeersFromPeer (httpGet : String → HttpResponse)
    (thisPeer : ContainerData) : Except String (Option JsonVal) :=
  let response := httpGet thisPeer.ipAddress
  if response.status_code ≠ 200 then Except.ok none
  else
    match getAttributeFromJSON "peers" response.body "There should be a peer json attribute" with
    | Except.error e => Except.error e
    | Except.ok v => Except.ok (some v)

/-- `peerIsReady` (lines 215-229): False when the peer list is absent,
otherwise compare the number of expected peers with the length of the
returned list. -/
def peerIsReady (httpGet : String → HttpResponse) (thisPeer : ContainerData)
    (allPeers : List ContainerData) : Except String Bool :=
  match getConnectedPeersFromPeer httpGet thisPeer with
  | Except.error e => Except.error e
  | Except.ok none => Except.ok false
  | Except.ok (some connectedPeers) =>
    match pyLen connectedPeers with
    | Except.error e => Except.error e
    | Except.ok numConnectedPeers => Except.ok (decide (allPeers.length = numConnectedPeers))

/-- C2: `peerIsReady` returns False whenever the peer-list query returns
absent, regardless of the expected-peer count, and when the query returns a
(non-absent) list it returns True iff the list's length equals the number of
expected peers — only cardinality is compared, never peer identities. -/
theorem peerIsReady_cardinality_only (g : String → HttpResponse) (p : ContainerData)
    (allPeers : List ContainerData) :
    (getConnectedPeersFromPeer g p = Except.ok none →
      peerIsReady g p allPeers = Except.ok false) ∧
    (∀ elems : List JsonVal,
      getConnectedPeersFromPeer g p = Except.ok (some (JsonVal.arr elems)) →
        (peerIsReady g p allPeers = Except.ok true ↔ elems.length = allPeers.length)) := by
  constructor
  · intro h
    simp only [peerIsReady, h]
  · intro elems h
    simp only [peerIsReady, h, pyLen]
    simp [decide_eq_true_iff, eq_comm]

/-- Sample collaborators used by the closed witnesses below. -/
def samplePeer : ContainerData := ContainerData.mk "net_vp0_1" "172.17.0.2" [] "vp0"

def okPeersHttp : String → HttpResponse :=
  fun _ => HttpResponse.mk 200
    (JsonVal.obj [("peers", JsonVal.arr [JsonVal.null, JsonVal.null])])

def errorHttp : String → HttpResponse :=
  fun _ => HttpResponse.mk 500 JsonVal.null

def noPeersFieldHttp : String → HttpResponse :=
  fun _ => HttpResponse.mk 200 (JsonVal.obj [])

theorem peerIsReady_cardinality_only_witness :
    peerIsReady okPeersHttp samplePeer [samplePeer, samplePeer] = Except.ok true ∧
    peerIsReady errorHttp samplePeer [samplePeer, samplePeer, samplePeer] = Except.ok false :=
  ⟨((peerIsReady_cardinality_only okPeersHttp samplePeer [samplePeer, samplePeer]).2
      [JsonVal.null, JsonVal.null] rfl).mpr rfl,
   (peerIsReady_cardinality_only errorHttp samplePeer
      [samplePeer, samplePeer, samplePeer]).1 rfl⟩

/-- C5: `getConnectedPeersFromPeer` returns absent (`Except.ok none`, not an
error) on any non-200 status; on a 200 status it extracts the `peers` JSON
field, raising the explicit error exactly when that field is structurally
missing and returning the field's value otherwise. -/
theorem getConnectedPeersFromPeer_spec (g : String → HttpResponse) (p : ContainerData) :
    ((g p.ipAddress).status_code ≠ 200 →
      getConnectedPeersFromPeer g p = Except.ok none) ∧
    ((g p.ipAddress).status_code = 200 →
      (jsonLookup "peers" (g p.ipAddress).body = none →
        getConnectedPeersFromPeer g p =
          Except.error "There should be a peer json attribute") ∧
      (∀ v, jsonLookup "peers" (g p.ipAddress).body = some v →
        getConnectedPeersFromPeer g p = Except.ok (some v))) := by
  constructor
  · intro h
    simp only [getConnectedPeersFromPeer, if_pos h]
  · intro h
    have hcond : ¬((g p.ipAddress).status_code ≠ 200) := by simp [h]
    constructor
    · intro hnone
      simp only [getConnectedPeersFromPeer, if_neg hcond, getAttributeFromJSON, hnone]
    · intro v hv
      simp only [getConnectedPeersFromPeer, if_neg hcond, getAttributeFromJSON, hv]

theorem getConnectedPeersFromPeer_spec_witness :
    getConnectedPeersFromPeer errorHttp samplePeer = Except.ok none ∧
    getConnectedPeersFromPeer noPeersFieldHttp samplePeer =
      Except.error "There should be a peer json attribute" :=
  ⟨(getConnectedPeersFromPeer_spec errorHttp samplePeer).1 (by decide),
   ((getConnectedPeersFromPeer_spec noPeersFieldHttp samplePeer).2 rfl).1 rfl⟩

/-! ## Timeout-bounded polling (bdd_compose_util.py, lines 101-132, 173-213)

Wall-clock time is modelled as a natural number of seconds that advances by
one at each `time.sleep(1)`; predicate evaluations take no model time.  The
collaborators are time-indexed so that the observed container/peer state may
change between polls.  Every loop returns, next to its Boolean outcome, the
time at which it returned, so that the sequential checks can thread the
clock. -/

/-- The external collaborators, indexed by the current time. -/
structure World where
  netstat : Nat → String → String
  curlRc : Nat → String → Int
  httpGet : Nat → String → HttpResponse

/-- `containerIsInitialized` (line 137) evaluated against the world at time
`t`. -/
def containerIsInitializedW (w : World) (t : Nat) (c : ContainerData) : Bool :=
  containerIsInitialized (w.netstat t) (w.curlRc t) c

/-- `containerIsNotInitialized` (lines 134-135). -/
def containerIsNotInitialized (w : World) (t : Nat) (c : ContainerData) : Bool :=
  ! containerIsInitializedW w t c

/-- `timestampExceeded` (lines 131-132): `time.time() > timeoutTimestamp`. -/
def timestampExceeded (timeoutTimestamp t : Nat) : Bool :=
  decide (timeoutTimestamp < t)

/-- `containerIsInitializedByTimestamp` (lines 119-129): poll the readiness
check once per second until it holds or the deadline has passed. -/
def containerIsInitializedByTimestamp (w : World) (container : ContainerData)
    (timeoutTimestamp t : Nat) : Bool × Nat :=
  if containerIsNotInitialized w t container then
    if h : timestampExceeded timeoutTimestamp t = true then (false, t)
    else containerIsInitializedByTimestamp w container timeoutTimestamp (t + 1)
  else (true, t)
termination_by timeoutTimestamp + 1 - t
decreasing_by
  simp only [timestampExceeded, decide_eq_true_eq] at h
  omega

/-- `peerIsReadyByTimestamp` (lines 200-210): poll `peerIsReady` once per
second until it holds or the deadline has passed; an exception from the JSON
extraction propagates. -/
def peerIsReadyByTimestamp (w : World) (peerContainer : ContainerData)
    (allPeerContainers : List ContainerData) (timeoutTimestamp t : Nat) :
    Except String (Bool × Nat) :=
  match peerIsReady (w.httpGet t) peerContainer allPeerContainers with
  | Except.error e => Except.error e
  | Except.ok ready =>
    if ready then Except.ok (true, t)
    else if h : timestampExceeded timeoutTimestamp t = true then Except.ok (false, t)
    else peerIsReadyByTimestamp w peerContainer allPeerContainers timeoutTimestamp (t + 1)
termination_by timeoutTimestamp + 1 - t
decreasing_by
  simp only [timestampExceeded, decide_eq_true_eq] at h
  omega

/-- `getPeerContainers` (lines 183-190). -/
def getPeerContainers (containers : List ContainerData) : List ContainerData :=
  containers.filter containerIsPeer

/-- The loop of `peersAreReadyByTimestamp` (lines 177-181): poll each peer in
turn against the same deadline, failing as soon as one times out. -/
def peersAreReadyLoop (w : World) (allPeers : List ContainerData)
    (timeoutTimestamp : Nat) : List ContainerData → Nat → Except String (Bool × Nat)
  | [], t => Except.ok (true, t)
  | p :: rest, t =>
    match peerIsReadyByTimestamp w p allPeers timeoutTimestamp t with
    | Except.error e => Except.error e
    | Except.ok (true, t') => peersAreReadyLoop w allPeers timeoutTimestamp rest t'
    | Except.ok (false, t') => Except.ok (false, t')

/-- `peersAreReadyByTimestamp` (lines 173-181). -/
def peersAreReadyByTimestamp (w : World) (containers : List ContainerData)
    (timeoutTimestamp t : Nat) : Except String (Bool × Nat) :=
  peersAreReadyLoop w (getPeerContainers containers) timeoutTimestamp
    (getPeerContainers containers) t

/-- The loop of `allContainersAreReadyWithinTimeout` (lines 108-110): check
each container in turn against the same deadline, returning False as soon as
one times out. -/
def containersReadyLoop (w : World) (timeoutTimestamp : Nat) :
    List ContainerData → Nat → Bool × Nat
  | [], t => (true, t)
  | c :: rest, t =>
    match containerIsInitializedByTimestamp w c timeoutTimestamp t with
    | (true, t') => containersReadyLoop w timeoutTimestamp rest t'
    | (false, t') => (false, t')

/-- `allContainersAreReadyWithinTimeout` (lines 101-117): the deadline is
computed once on entry (`time.time() + timeout`, line 102) and shared by the
per-container polls and the per-peer polls. -/
def allContainersAreReadyWithinTimeout (w : World) (containers : List ContainerData)
    (timeout t : Nat) : Except String (Bool × Nat) :=
  match containersReadyLoop w (t + timeout) containers t with
  | (true, t') => peersAreReadyByTimestamp w containers (t + timeout) t'
  | (false, t') => Except.ok (false, t')

/-! ## The generic single-deadline poller

`pollCheck` is the spec's `pollUntilReadyOrTimeout`: one boolean check
retried once per second until it holds or the given absolute deadline has
passed.  `pollAllChecks` runs a list of checks sequentially against one
shared deadline and is their logical AND.  The C1 theorem below shows the
source function equals this combinator applied to all per-container checks
followed by all per-peer checks, with the single deadline `t + timeout`. -/

def pollCheck (check : Nat → Except String Bool) (deadline t : Nat) :
    Except String (Bool × Nat) :=
  match check t with
  | Except.error e => Except.error e
  | Except.ok true => Except.ok (true, t)
  | Except.ok false =>
    if h : timestampExceeded deadline t = true then Except.ok (false, t)
    else pollCheck check deadline (t + 1)
termination_by deadline + 1 - t
decreasing_by
  simp only [timestampExceeded, decide_eq_true_eq] at h
  omega

def pollAllChecks (deadline : Nat) : List (Nat → Except String Bool) → Nat →
    Except String (Bool × Nat)
  | [], t => Except.ok (true, t)
  | check :: rest, t =>
    match pollCheck check deadline t with
    | Except.error e => Except.error e
    | Except.ok (true, t') => pollAllChecks deadline rest t'
    | Except.ok (false, t') => Except.ok (false, t')

theorem pollCheck_container (w : World) (c : ContainerData) (d : Nat) :
    ∀ n t, d + 1 - t ≤ n →
      pollCheck (fun s => Except.ok (containerIsInitializedW w s c)) d t =
        Except.ok (containerIsInitializedByTimestamp w c d t) := by
  intro n
  induction n with
  | zero =>
    intro t ht
    have hex : timestampExceeded d t = true := by
      simp only [timestampExceeded, decide_eq_true_eq]
      omega
    rw [pollCheck.eq_def, containerIsInitializedByTimestamp.eq_def]
    cases hc : containerIsInitializedW w t c with
    | true => simp [containerIsNotInitialized, hc]
    | false => simp [containerIsNotInitialized, hc, hex]
  | succ n ih =>
    intro t ht
    rw [pollCheck.eq_def, containerIsInitializedByTimestamp.eq_def]
    cases hc : containerIsInitializedW w t c with
    | true => simp [containerIsNotInitialized, hc]
    | false =>
      by_cases hex : timestampExceeded d t = true
      · simp [containerIsNotInitialized, hc, hex]
      · have hle : d + 1 - (t + 1) ≤ n := by
          simp only [timestampExceeded, decide_eq_true_eq] at hex
          omega
        simp only [containerIsNotInitialized, hc, Bool.not_false, if_true, hex,
          dite_false, Bool.false_eq_true, if_false]
        exact ih (t + 1) hle

theorem pollCheck_peer (w : World) (p : ContainerData) (ps : List ContainerData) (d : Nat) :
    ∀ n t, d + 1 - t ≤ n →
      pollCheck (fun s => peerIsReady (w.httpGet s) p ps) d t =
        peerIsReadyByTimestamp w p ps d t := by
  intro n
  induction n with
  | zero =>
    intro t ht
    have hex : timestampExceeded d t = true := by
      simp only [timestampExceeded, decide_eq_true_eq]
      omega
    rw [pollCheck.eq_def, peerIsReadyByTimestamp.eq_def]
    cases hr : peerIsReady (w.httpGet t) p ps with
    | error e => simp
    | ok ready => cases ready <;> simp [hex]
  | succ n ih =>
    intro t ht
    rw [pollCheck.eq_def, peerIsReadyByTimestamp.eq_def]
    cases hr : peerIsReady (w.httpGet t) p ps with
    | error e => simp
    | ok ready =>
      cases ready with
      | true => simp
      | false =>
        by_cases hex : timestampExceeded d t = true
        · simp [hex]
        · have hle : d + 1 - (t + 1) ≤ n := by
            simp only [timestampExceeded, decide_eq_true_eq] at hex
            omega
          simp only [hex, dite_false, Bool.false_eq_true, if_false]
          exact ih (t + 1) hle

theorem pollAllChecks_containers (w : World) (d : Nat) :
    ∀ (cs : List ContainerData) (t : Nat),
      pollAllChecks d (cs.map (fun c => fun s =>
          Except.ok (containerIsInitializedW w s c))) t =
        Except.ok (containersReadyLoop w d cs t) := by
  intro cs
  induction cs with
  | nil => intro t; rfl
  | cons c rest ih =>
    intro t
    simp only [List.map_cons, pollAllChecks, containersReadyLoop]
    rw [pollCheck_container w c d (d + 1 - t) t (le_refl _)]
    rcases hr : containerIsInitializedByTimestamp w c d t with ⟨ok, t'⟩
    cases ok with
    | true => simpa using ih t'
    | false => simp

theorem pollAllChecks_peers (w : World) (allPs : List ContainerData) (d : Nat) :
    ∀ (ps : List ContainerData) (t : Nat),
      pollAllChecks d (ps.map (fun p => fun s =>
          peerIsReady (w.httpGet s) p allPs)) t =
        peersAreReadyLoop w allPs d ps t := by
  intro ps
  induction ps with
  | nil => intro t; rfl
  | cons p rest ih =>
    intro t
    simp only [List.map_cons, pollAllChecks, peersAreReadyLoop]
    rw [pollCheck_peer w p allPs d (d + 1 - t) t (le_refl _)]
    cases hr : peerIsReadyByTimestamp w p allPs d t with
    | error e => simp
    | ok r =>
      rcases r with ⟨ok, t'⟩
      cases ok with
      | true => simpa using ih t'
      | false => simp

theorem pollAllChecks_append (d : Nat) :
    ∀ (xs ys : List (Nat → Except String Bool)) (t : Nat),
      pollAllChecks d (xs ++ ys) t =
        match pollAllChecks d xs t with
        | Except.error e => Except.error e
        | Except.ok (true, t') => pollAllChecks d ys t'
        | Except.ok (false, t') => Except.ok (false, t') := by
  intro xs
  induction xs with
  | nil => intro ys t; rfl
  | cons x xs ih =>
    intro ys t
    simp only [List.cons_append, pollAllChecks]
    cases hr : pollCheck x d t with
    | error e => rfl
    | ok r =>
      rcases r with ⟨ok, t'⟩
      cases ok with
      | true => exact ih ys t'
      | false => rfl

/-- C1: `allContainersAreReadyWithinTimeout` computes the single absolute
deadline `t + timeout` on entry and equals the generic single-deadline
poller `pollAllChecks` run, at that shared unrestarted deadline, on the list
of all per-container readiness checks followed by all per-peer convergence
checks — i.e. its outcome is the sequential logical AND of every one of
those polls under the one shared deadline, with the clock threaded from each
poll to the next. -/
theorem allContainersAreReadyWithinTimeout_spec (w : World)
    (containers : List ContainerData) (timeout t : Nat) :
    allContainersAreReadyWithinTimeout w containers timeout t =
      pollAllChecks (t + timeout)
        ((containers.map (fun c => fun s =>
            Except.ok (containerIsInitializedW w s c))) ++
          ((getPeerContainers containers).map (fun p => fun s =>
            peerIsReady (w.httpGet s) p (getPeerContainers containers)))) t := by
  rw [pollAllChecks_append, pollAllChecks_containers]
  simp only [allContainersAreReadyWithinTimeout, peersAreReadyByTimestamp]
  rcases hr : containersReadyLoop w (t + timeout) containers t with ⟨ok, t'⟩
  cases ok with
  | true =>
    exact (pollAllChecks_peers w (getPeerContainers containers) (t + timeout)
      (getPeerContainers containers) t').symm
  | false => rfl
